import Mathlib

/-!
Verification of the LibIA persistence layer (Rust sources under
`src/app/src-tauri/src`): the entity models `Document` and `Chunk`
(`models/document.rs`, `models/chunk.rs`) and the sled/bincode repository
operations (`services/database.rs`).

Shallow embedding conventions:
* Rust `String` values are modelled as `List Nat` of Unicode scalar values;
  `str::as_bytes` / UTF-8 validation is modelled by `utf8Encode` / `utf8Decode`.
* bincode 1.x with its default configuration serializes integers fixed-width
  little-endian (`usize`/`u64` as 8 bytes), `bool` as one byte `0`/`1`,
  `String` as a `u64` byte-length followed by the UTF-8 bytes, and
  `Option<T>` as a one-byte tag (`0` = `None`, `1` = `Some`) followed by the
  payload; struct fields are concatenated in declaration order.
* The sled tree `"documents"` is modelled as an association list from key
  bytes to value bytes (`Tree`); sled I/O failures are outside the embedding,
  so the modelled operations cover the paths on which sled itself succeeds.
* `SystemTime::now()` is modelled by an explicit clock parameter measured in
  nanoseconds since the Unix epoch (an `Int`, so pre-epoch clock states are
  representable); a Rust panic is modelled as `Option.none`.
-/

namespace LibIA

/-- A Unicode scalar value: the values a Rust `char` can take. -/
def IsScalar (c : Nat) : Prop := c < 0xD800 ∨ (0xE000 ≤ c ∧ c < 0x110000)

instance (c : Nat) : Decidable (IsScalar c) := by
  unfold IsScalar; exact inferInstance

/-- UTF-8 encoding of one Unicode scalar value, as in Rust `char::encode_utf8`. -/
def utf8EncodeChar (c : Nat) : List Nat :=
  if c < 0x80 then [c]
  else if c < 0x800 then [0xC0 + c / 0x40, 0x80 + c % 0x40]
  else if c < 0x10000 then
    [0xE0 + c / 0x1000, 0x80 + c / 0x40 % 0x40, 0x80 + c % 0x40]
  else
    [0xF0 + c / 0x40000, 0x80 + c / 0x1000 % 0x40, 0x80 + c / 0x40 % 0x40,
     0x80 + c % 0x40]

/-- UTF-8 encoding of a string (list of scalar values), as in `str::as_bytes`. -/
def utf8Encode (s : List Nat) : List Nat :=
  s.foldr (fun c acc => utf8EncodeChar c ++ acc) []

/-- Decode one UTF-8 scalar value off the front of a byte list, with the
validation Rust's `String::from_utf8` performs: continuation bytes must lie in
`0x80..0xBF`, overlong encodings, surrogates and values above `0x10FFFF` are
rejected. Returns the scalar value and the remaining bytes, or `none`. -/
def utf8DecodeOne : List Nat → Option (Nat × List Nat)
  | [] => none
  | b0 :: t =>
    if b0 < 0x80 then some (b0, t)
    else if b0 < 0xC2 then none
    else if b0 < 0xE0 then
      match t with
      | b1 :: t1 =>
        if 0x80 ≤ b1 ∧ b1 < 0xC0 then
          some ((b0 - 0xC0) * 0x40 + (b1 - 0x80), t1)
        else none
      | [] => none
    else if b0 < 0xF0 then
      match t with
      | b1 :: b2 :: t2 =>
        if (0x80 ≤ b1 ∧ b1 < 0xC0) ∧ (0x80 ≤ b2 ∧ b2 < 0xC0) ∧
            0x800 ≤ (b0 - 0xE0) * 0x1000 + (b1 - 0x80) * 0x40 + (b2 - 0x80) ∧
            ((b0 - 0xE0) * 0x1000 + (b1 - 0x80) * 0x40 + (b2 - 0x80) < 0xD800 ∨
              0xE000 ≤ (b0 - 0xE0) * 0x1000 + (b1 - 0x80) * 0x40 + (b2 - 0x80)) then
          some ((b0 - 0xE0) * 0x1000 + (b1 - 0x80) * 0x40 + (b2 - 0x80), t2)
        else none
      | _ => none
    else if b0 < 0xF5 then
      match t with
      | b1 :: b2 :: b3 :: t3 =>
        if (0x80 ≤ b1 ∧ b1 < 0xC0) ∧ (0x80 ≤ b2 ∧ b2 < 0xC0) ∧
            (0x80 ≤ b3 ∧ b3 < 0xC0) ∧
            0x10000 ≤ (b0 - 0xF0) * 0x40000 + (b1 - 0x80) * 0x1000 +
              (b2 - 0x80) * 0x40 + (b3 - 0x80) ∧
            (b0 - 0xF0) * 0x40000 + (b1 - 0x80) * 0x1000 +
              (b2 - 0x80) * 0x40 + (b3 - 0x80) < 0x110000 then
          some ((b0 - 0xF0) * 0x40000 + (b1 - 0x80) * 0x1000 +
            (b2 - 0x80) * 0x40 + (b3 - 0x80), t3)
        else none
      | _ => none
    else none

set_option maxRecDepth 8000 in
theorem utf8DecodeOne_length (l : List Nat) (p : Nat × List Nat)
    (h : utf8DecodeOne l = some p) : p.2.length < l.length := by
  rcases l with _ | ⟨b0, _ | ⟨b1, _ | ⟨b2, _ | ⟨b3, t⟩⟩⟩⟩ <;>
      simp only [utf8DecodeOne] at h <;>
      (try split_ifs at h) <;>
      cases h <;>
      simp_arith

/-- UTF-8 decoding of a whole byte list, structurally recursive on a fuel
bound so that it evaluates by kernel reduction; each decoded character
consumes at least one byte, so `l.length` is enough fuel. -/
def utf8DecodeAux : Nat → List Nat → Option (List Nat)
  | _, [] => some []
  | 0, _ :: _ => none
  | fuel + 1, b0 :: t =>
    match utf8DecodeOne (b0 :: t) with
    | none => none
    | some p => (utf8DecodeAux fuel p.2).map (fun cs => p.1 :: cs)

/-- UTF-8 decoding of a whole byte list, as performed by `String::from_utf8`
inside bincode's `String` deserializer. -/
def utf8Decode (l : List Nat) : Option (List Nat) :=
  utf8DecodeAux l.length l

theorem utf8DecodeAux_congr : ∀ (f1 : Nat) (l : List Nat) (f2 : Nat),
    l.length ≤ f1 → l.length ≤ f2 → utf8DecodeAux f1 l = utf8DecodeAux f2 l := by
  intro f1
  induction f1 with
  | zero =>
    intro l f2 h1 _
    rcases l with _ | ⟨b0, t⟩
    · cases f2 <;> rfl
    · simp at h1
  | succ g1 ih =>
    intro l f2 h1 h2
    rcases l with _ | ⟨b0, t⟩
    · cases f2 <;> rfl
    · rcases f2 with _ | g2
      · simp at h2
      · rw [utf8DecodeAux, utf8DecodeAux]
        cases hone : utf8DecodeOne (b0 :: t) with
        | none => rfl
        | some p =>
          have hlt := utf8DecodeOne_length (b0 :: t) p hone
          simp only [List.length_cons] at hlt h1 h2
          dsimp only
          rw [ih p.2 g2 (by omega) (by omega)]

/-- bincode fixed-width little-endian encoding of a `u64`/`usize`. -/
def u64le (n : Nat) : List Nat :=
  [n % 256, n / 2 ^ 8 % 256, n / 2 ^ 16 % 256, n / 2 ^ 24 % 256,
   n / 2 ^ 32 % 256, n / 2 ^ 40 % 256, n / 2 ^ 48 % 256, n / 2 ^ 56 % 256]

/-- Read a little-endian `u64` off the front of a byte list. -/
def readU64 : List Nat → Option (Nat × List Nat)
  | b0 :: b1 :: b2 :: b3 :: b4 :: b5 :: b6 :: b7 :: r =>
    some (b0 + 2 ^ 8 * b1 + 2 ^ 16 * b2 + 2 ^ 24 * b3 + 2 ^ 32 * b4 +
      2 ^ 40 * b5 + 2 ^ 48 * b6 + 2 ^ 56 * b7, r)
  | _ => none

theorem readU64_u64le (n : Nat) (h : n < 2 ^ 64) (r : List Nat) :
    readU64 (u64le n ++ r) = some (n, r) := by
  simp only [u64le, List.cons_append, List.nil_append, readU64,
    Option.some.injEq, Prod.mk.injEq, and_true]
  omega

theorem utf8DecodeOne_encodeChar (c : Nat) (h : IsScalar c) (r : List Nat) :
    utf8DecodeOne (utf8EncodeChar c ++ r) = some (c, r) := by
  have h' : c < 0xD800 ∨ (0xE000 ≤ c ∧ c < 0x110000) := h
  rcases Nat.lt_or_ge c 0x80 with h1 | h1
  · rw [utf8EncodeChar, if_pos h1]
    simp only [List.cons_append, List.nil_append, utf8DecodeOne, if_pos h1]
  · rcases Nat.lt_or_ge c 0x800 with h2 | h2
    · rw [utf8EncodeChar, if_neg (by omega), if_pos h2]
      simp only [List.cons_append, List.nil_append, utf8DecodeOne]
      rw [if_neg (by omega), if_neg (by omega), if_pos (by omega), if_pos (by omega)]
      have hc : (0xC0 + c / 0x40 - 0xC0) * 0x40 + (0x80 + c % 0x40 - 0x80) = c := by
        omega
      rw [hc]
    · rcases Nat.lt_or_ge c 0x10000 with h3 | h3
      · rw [utf8EncodeChar, if_neg (by omega), if_neg (by omega), if_pos h3]
        simp only [List.cons_append, List.nil_append, utf8DecodeOne]
        rw [if_neg (by omega), if_neg (by omega), if_neg (by omega), if_pos (by omega),
          if_pos (by omega)]
        have hc : (0xE0 + c / 0x1000 - 0xE0) * 0x1000 +
            (0x80 + c / 0x40 % 0x40 - 0x80) * 0x40 + (0x80 + c % 0x40 - 0x80) = c := by
          omega
        rw [hc]
      · have hcu : c < 0x110000 := by omega
        rw [utf8EncodeChar, if_neg (by omega), if_neg (by omega), if_neg (by omega)]
        simp only [List.cons_append, List.nil_append, utf8DecodeOne]
        rw [if_neg (by omega), if_neg (by omega), if_neg (by omega), if_neg (by omega),
          if_pos (by omega), if_pos (by omega)]
        have hc : (0xF0 + c / 0x40000 - 0xF0) * 0x40000 +
            (0x80 + c / 0x1000 % 0x40 - 0x80) * 0x1000 +
            (0x80 + c / 0x40 % 0x40 - 0x80) * 0x40 + (0x80 + c % 0x40 - 0x80) = c := by
          omega
        rw [hc]

theorem utf8Decode_cons_eq (l : List Nat) (c : Nat) (rest : List Nat)
    (h : utf8DecodeOne l = some (c, rest)) :
    utf8Decode l = (utf8Decode rest).map (fun cs => c :: cs) := by
  rcases l with _ | ⟨b0, t⟩
  · exact absurd h (by simp [utf8DecodeOne])
  · have hlt := utf8DecodeOne_length (b0 :: t) (c, rest) h
    simp only [List.length_cons] at hlt
    rw [utf8Decode, List.length_cons, utf8DecodeAux, h]
    dsimp only
    rw [utf8Decode]
    exact congrArg _ (utf8DecodeAux_congr t.length rest rest.length
      (by omega) le_rfl)

theorem utf8Decode_encodeChar (c : Nat) (h : IsScalar c) (r : List Nat) :
    utf8Decode (utf8EncodeChar c ++ r) = (utf8Decode r).map (fun cs => c :: cs) :=
  utf8Decode_cons_eq _ c r (utf8DecodeOne_encodeChar c h r)

theorem utf8Decode_utf8Encode (s : List Nat) (h : ∀ c ∈ s, IsScalar c) :
    utf8Decode (utf8Encode s) = some s := by
  induction s with
  | nil => rfl
  | cons c s ih =>
    have hc : IsScalar c := h c (List.mem_cons_self c s)
    have hs : ∀ x ∈ s, IsScalar x := fun x hx => h x (List.mem_cons_of_mem c hx)
    show utf8Decode (utf8EncodeChar c ++ utf8Encode s) = some (c :: s)
    rw [utf8Decode_encodeChar c hc, ih hs]
    rfl

/-- bincode 1.x encoding of a Rust `String`: the UTF-8 byte length as a
little-endian `u64`, then the UTF-8 bytes themselves. -/
def serializeStr (s : List Nat) : List Nat :=
  u64le (utf8Encode s).length ++ utf8Encode s

/-- bincode 1.x decoding of a Rust `String`: read the `u64` byte length, take
that many bytes, validate them as UTF-8. -/
def readStr (l : List Nat) : Option (List Nat × List Nat) :=
  match readU64 l with
  | none => none
  | some (n, r) =>
    if n ≤ r.length then
      match utf8Decode (r.take n) with
      | some s => some (s, r.drop n)
      | none => none
    else none

/-- bincode 1.x encoding of a Rust `bool`: one byte, `0` or `1`. -/
def serializeBool (b : Bool) : List Nat := [if b then 1 else 0]

/-- bincode 1.x decoding of a Rust `bool`; any byte other than `0`/`1` is
rejected. -/
def readBool : List Nat → Option (Bool × List Nat)
  | 0 :: r => some (false, r)
  | 1 :: r => some (true, r)
  | _ => none

/-- bincode 1.x encoding of `Option<String>`: tag byte `0` for `None`, `1`
followed by the string encoding for `Some`. -/
def serializeOptStr : Option (List Nat) → List Nat
  | none => [0]
  | some s => 1 :: serializeStr s

/-- bincode 1.x decoding of `Option<String>`. -/
def readOptStr : List Nat → Option (Option (List Nat) × List Nat)
  | 0 :: r => some (none, r)
  | 1 :: r => (readStr r).map (fun p => (some p.1, p.2))
  | _ => none

/-- A modelled Rust string is valid when all its entries are Unicode scalar
values (true of every Rust `String`) and its UTF-8 byte length fits in `u64`
(true of every in-memory Rust `String`). -/
def ValidStr (s : List Nat) : Prop :=
  (∀ c ∈ s, IsScalar c) ∧ (utf8Encode s).length < 2 ^ 64

instance (s : List Nat) : Decidable (ValidStr s) := by
  unfold ValidStr; exact inferInstance

theorem readStr_serializeStr (s : List Nat) (h : ValidStr s) (r : List Nat) :
    readStr (serializeStr s ++ r) = some (s, r) := by
  obtain ⟨hs, hlen⟩ := h
  rw [serializeStr, List.append_assoc, readStr, readU64_u64le _ hlen]
  simp only
  rw [if_pos (by simp)]
  rw [List.take_left, List.drop_left, utf8Decode_utf8Encode s hs]

theorem readBool_serializeBool (b : Bool) (r : List Nat) :
    readBool (serializeBool b ++ r) = some (b, r) := by
  cases b <;> rfl

theorem readOptStr_serializeOptStr (m : Option (List Nat))
    (h : ∀ s ∈ m, ValidStr s) (r : List Nat) :
    readOptStr (serializeOptStr m ++ r) = some (m, r) := by
  cases m with
  | none => rfl
  | some s =>
    show readOptStr (1 :: (serializeStr s ++ r)) = some (some s, r)
    rw [readOptStr, readStr_serializeStr s (h s rfl) r]
    rfl

/-- The `Document` struct of `models/document.rs`, field for field. Strings
are lists of Unicode scalar values; `page_count : usize` and
`created_at : u64` are `Nat` with explicit `< 2 ^ 64` bounds in
`Document.Valid`. -/
structure Document where
  id : List Nat
  name : List Nat
  file_path : List Nat
  page_count : Nat
  created_at : Nat
  is_indexed : Bool
deriving Repr, DecidableEq

/-- The `Chunk` struct of `models/chunk.rs`, field for field. -/
structure Chunk where
  id : List Nat
  document_id : List Nat
  text : List Nat
  index : Nat
  page_number : Nat
  char_count : Nat
  metadata : Option (List Nat)
deriving Repr, DecidableEq

/-- A `Document` value representable in Rust: strings hold scalar values with
`u64`-bounded byte length, numeric fields fit their machine width. -/
def Document.Valid (d : Document) : Prop :=
  ValidStr d.id ∧ ValidStr d.name ∧ ValidStr d.file_path ∧
    d.page_count < 2 ^ 64 ∧ d.created_at < 2 ^ 64

instance (d : Document) : Decidable d.Valid := by
  unfold Document.Valid; exact inferInstance

/-- A `Chunk` value representable in Rust. -/
def Chunk.Valid (c : Chunk) : Prop :=
  ValidStr c.id ∧ ValidStr c.document_id ∧ ValidStr c.text ∧
    c.index < 2 ^ 64 ∧ c.page_number < 2 ^ 64 ∧ c.char_count < 2 ^ 64 ∧
    ∀ s ∈ c.metadata, ValidStr s

instance (c : Chunk) : Decidable c.Valid := by
  unfold Chunk.Valid; exact inferInstance

/-- `bincode::serialize` of a `Document` (bincode 1.x, default configuration):
the fields' encodings concatenated in declaration order. -/
def serializeDocument (d : Document) : List Nat :=
  serializeStr d.id ++ serializeStr d.name ++ serializeStr d.file_path ++
    u64le d.page_count ++ u64le d.created_at ++ serializeBool d.is_indexed

/-- `bincode::deserialize` of a `Document`, reading the fields in declaration
order and returning the remaining bytes. -/
def readDocument (l : List Nat) : Option (Document × List Nat) :=
  match readStr l with
  | none => none
  | some (i, r1) =>
    match readStr r1 with
    | none => none
    | some (n, r2) =>
      match readStr r2 with
      | none => none
      | some (fp, r3) =>
        match readU64 r3 with
        | none => none
        | some (pc, r4) =>
          match readU64 r4 with
          | none => none
          | some (ca, r5) =>
            match readBool r5 with
            | none => none
            | some (ix, r6) => some (⟨i, n, fp, pc, ca, ix⟩, r6)

/-- `bincode::deserialize::<Document>` on a byte slice (bincode 1.x does not
reject trailing bytes). -/
def deserializeDocument (l : List Nat) : Option Document :=
  (readDocument l).map (fun p => p.1)

/-- `bincode::serialize` of a `Chunk`. -/
def serializeChunk (c : Chunk) : List Nat :=
  serializeStr c.id ++ serializeStr c.document_id ++ serializeStr c.text ++
    u64le c.index ++ u64le c.page_number ++ u64le c.char_count ++
    serializeOptStr c.metadata

/-- `bincode::deserialize` of a `Chunk`, reading the fields in declaration
order and returning the remaining bytes. -/
def readChunk (l : List Nat) : Option (Chunk × List Nat) :=
  match readStr l with
  | none => none
  | some (i, r1) =>
    match readStr r1 with
    | none => none
    | some (di, r2) =>
      match readStr r2 with
      | none => none
      | some (tx, r3) =>
        match readU64 r3 with
        | none => none
        | some (ix, r4) =>
          match readU64 r4 with
          | none => none
          | some (pn, r5) =>
            match readU64 r5 with
            | none => none
            | some (cc, r6) =>
              match readOptStr r6 with
              | none => none
              | some (m, r7) => some (⟨i, di, tx, ix, pn, cc, m⟩, r7)

/-- `bincode::deserialize::<Chunk>` on a byte slice. -/
def deserializeChunk (l : List Nat) : Option Chunk :=
  (readChunk l).map (fun p => p.1)

theorem readDocument_serializeDocument (d : Document) (h : d.Valid)
    (r : List Nat) : readDocument (serializeDocument d ++ r) = some (d, r) := by
  obtain ⟨h1, h2, h3, h4, h5⟩ := h
  simp only [serializeDocument, List.append_assoc, readDocument,
    readStr_serializeStr _ h1, readStr_serializeStr _ h2,
    readStr_serializeStr _ h3, readU64_u64le _ h4, readU64_u64le _ h5,
    readBool_serializeBool]

theorem readChunk_serializeChunk (c : Chunk) (h : c.Valid) (r : List Nat) :
    readChunk (serializeChunk c ++ r) = some (c, r) := by
  obtain ⟨h1, h2, h3, h4, h5, h6, h7⟩ := h
  simp only [serializeChunk, List.append_assoc, readChunk,
    readStr_serializeStr _ h1, readStr_serializeStr _ h2,
    readStr_serializeStr _ h3, readU64_u64le _ h4, readU64_u64le _ h5,
    readU64_u64le _ h6, readOptStr_serializeOptStr _ h7]

theorem deserializeDocument_serializeDocument (d : Document) (h : d.Valid) :
    deserializeDocument (serializeDocument d) = some d := by
  rw [deserializeDocument,
    show serializeDocument d = serializeDocument d ++ [] from (List.append_nil _).symm,
    readDocument_serializeDocument d h []]
  rfl

theorem deserializeChunk_serializeChunk (c : Chunk) (h : c.Valid) :
    deserializeChunk (serializeChunk c) = some c := by
  rw [deserializeChunk,
    show serializeChunk c = serializeChunk c ++ [] from (List.append_nil _).symm,
    readChunk_serializeChunk c h []]
  rfl

/-- The `"documents"` sled tree, modelled as an association list from key
bytes to value bytes. Iteration order is the list order (sled's own order is
unspecified by the spec). -/
abbrev Tree := List (List Nat × List Nat)

/-- `sled::Tree::get`: the value stored under a key, if any. -/
def treeGet (t : Tree) (k : List Nat) : Option (List Nat) :=
  match t with
  | [] => none
  | (k', v) :: rest => if k' = k then some v else treeGet rest k

/-- `sled::Tree::insert`: store `v` under `k`, overwriting an existing record
with the same key. -/
def treeInsert (t : Tree) (k v : List Nat) : Tree :=
  match t with
  | [] => [(k, v)]
  | (k', v') :: rest =>
    if k' = k then (k, v) :: rest else (k', v') :: treeInsert rest k v

/-- `sled::Tree::remove`: drop the record under `k` if present. -/
def treeRemove (t : Tree) (k : List Nat) : Tree :=
  match t with
  | [] => []
  | (k', v') :: rest =>
    if k' = k then treeRemove rest k else (k', v') :: treeRemove rest k

theorem treeGet_treeInsert (t : Tree) (k v : List Nat) :
    treeGet (treeInsert t k v) k = some v := by
  induction t with
  | nil => simp [treeInsert, treeGet]
  | cons p rest ih =>
    obtain ⟨k', v'⟩ := p
    by_cases h : k' = k
    · simp [treeInsert, treeGet, h]
    · simp only [treeInsert, if_neg h, treeGet, ih, if_neg h]

theorem treeGet_treeRemove (t : Tree) (k : List Nat) :
    treeGet (treeRemove t k) k = none := by
  induction t with
  | nil => rfl
  | cons p rest ih =>
    obtain ⟨k', v'⟩ := p
    by_cases h : k' = k
    · simp only [treeRemove, if_pos h, ih]
    · simp only [treeRemove, if_neg h, treeGet, ih, if_neg h]

theorem treeRemove_of_treeGet_none (t : Tree) (k : List Nat)
    (h : treeGet t k = none) : treeRemove t k = t := by
  induction t with
  | nil => rfl
  | cons p rest ih =>
    obtain ⟨k', v'⟩ := p
    rw [treeGet] at h
    by_cases hk : k' = k
    · rw [if_pos hk] at h; cases h
    · rw [if_neg hk] at h
      rw [treeRemove, if_neg hk, ih h]

/-- `insert_document` of `services/database.rs` on the success path of sled:
serialize with bincode and store under the UTF-8 bytes of `doc.id`
(`doc.id.as_bytes()`). The sled write and flush themselves can only fail with
I/O errors, which lie outside the embedding. -/
def insert_document (t : Tree) (doc : Document) : Tree :=
  treeInsert t (utf8Encode doc.id) (serializeDocument doc)

/-- `get_document` of `services/database.rs`: look up the UTF-8 bytes of `id`;
a missing record is `Ok(None)`; stored bytes that fail to deserialize are an
`Err`. -/
def get_document (t : Tree) (i : List Nat) : Except String (Option Document) :=
  match treeGet t (utf8Encode i) with
  | none => Except.ok none
  | some bytes =>
    match deserializeDocument bytes with
    | some doc => Except.ok (some doc)
    | none => Except.error "deseralization error"

/-- `get_all_documents` of `services/database.rs`: iterate the tree, decoding
each value; the first value that fails to decode aborts the whole call. -/
def get_all_documents (t : Tree) : Except String (List Document) :=
  match t with
  | [] => Except.ok []
  | (_, v) :: rest =>
    match deserializeDocument v with
    | none => Except.error "desearialize error"
    | some doc => (get_all_documents rest).map (fun ds => doc :: ds)

/-- `delete_document` of `services/database.rs` on the success path of sled:
remove the record under the UTF-8 bytes of `id`. `Tree::remove` succeeds
whether or not the key is present. -/
def delete_document (t : Tree) (i : List Nat) : Tree :=
  treeRemove t (utf8Encode i)

/-- `Document::new` of `models/document.rs`. The wall clock is an explicit
parameter, in nanoseconds relative to the Unix epoch;
`SystemTime::duration_since(UNIX_EPOCH)` fails for a pre-epoch clock and the
`.unwrap()` then panics, modelled as `none`. `as_secs` truncates to whole
seconds. -/
def Document.new (clock_ns : Int) (i n fp : List Nat) (pc : Nat) :
    Option Document :=
  match (if 0 ≤ clock_ns then some clock_ns.toNat else none) with
  | none => none
  | some d =>
    some { id := i, name := n, file_path := fp, page_count := pc,
           created_at := d / 1000000000, is_indexed := false }

/-- `Document::mark_as_indexed` of `models/document.rs`. -/
def mark_as_indexed (d : Document) : Document :=
  { d with is_indexed := true }

/-- The operations this layer defines that produce a `Document` from an
existing one; `mark_as_indexed` is the only mutator `models/document.rs`
declares. -/
inductive DocOp where
  | markAsIndexed
deriving Repr, DecidableEq

/-- Apply a `DocOp` to a `Document`. -/
def applyDocOp : DocOp → Document → Document
  | DocOp.markAsIndexed, d => mark_as_indexed d

/-- `Chunk::new` of `models/chunk.rs`: `char_count` is
`text.chars().count()`, the number of Unicode scalar values of `text`. -/
def Chunk.new (i di tx : List Nat) (ix pn : Nat) : Chunk :=
  { id := i, document_id := di, text := tx, index := ix, page_number := pn,
    char_count := tx.length, metadata := none }

/-- `Chunk::with_metadata` of `models/chunk.rs`. -/
def Chunk.with_metadata (c : Chunk) (m : List Nat) : Chunk :=
  { c with metadata := some m }

/-- The compile-time `env!("CARGO_PKG_NAME")` default of `default_app_name`
in `services/database.rs`. The crate manifest is not among the sources; the
exact constant is irrelevant to every property proved below. -/
def default_app_name : String := "app"

/-- The host-dependent directory inputs `get_db_dir` consults:
`dirs::data_local_dir()`, `dirs::data_dir()` and `std::env::current_dir()`
(the last can fail, hence `Option`). Paths are lists of components. -/
structure DirEnv where
  data_local_dir : Option (List String)
  data_dir : Option (List String)
  current_dir : Option (List String)

/-- `get_db_dir` of `services/database.rs`, with the host state explicit:
`data_local_dir().or_else(data_dir).unwrap_or_else(current_dir()
.unwrap_or_else(PathBuf::from(".")))`, then `push(app_name)` with the
compile-time default when `app_name` is `None`. Total: every fallback level
is handled. -/
def get_db_dir (env : DirEnv) (app_name : Option String) : List String :=
  let nm := app_name.getD default_app_name
  let base :=
    match env.data_local_dir with
    | some p => p
    | none =>
      match env.data_dir with
      | some p => p
      | none =>
        match env.current_dir with
        | some p => p
        | none => ["."]
  base ++ [nm]

theorem treeInsert_treeInsert_same (t : Tree) (k v1 v2 : List Nat) :
    treeInsert (treeInsert t k v1) k v2 = treeInsert t k v2 := by
  induction t with
  | nil => simp [treeInsert]
  | cons p rest ih =>
    obtain ⟨k', v'⟩ := p
    by_cases h : k' = k
    · simp [treeInsert, h]
    · simp only [treeInsert, if_neg h, ih]

theorem get_document_insert_document (t : Tree) (d : Document) (h : d.Valid) :
    get_document (insert_document t d) d.id = Except.ok (some d) := by
  rw [get_document, insert_document, treeGet_treeInsert]
  simp only [deserializeDocument_serializeDocument d h]

theorem get_all_documents_ok (t : Tree)
    (h : ∀ p ∈ t, (deserializeDocument p.2).isSome) :
    get_all_documents t
      = Except.ok (t.filterMap (fun p => deserializeDocument p.2)) := by
  induction t with
  | nil => rfl
  | cons p rest ih =>
    obtain ⟨k, v⟩ := p
    obtain ⟨d, hd⟩ :=
      Option.isSome_iff_exists.mp (h (k, v) (List.mem_cons_self _ _))
    rw [get_all_documents]
    simp only at hd
    rw [hd, ih (fun q hq => h q (List.mem_cons_of_mem _ hq)),
      List.filterMap_cons, hd]
    rfl

theorem get_all_documents_abort (good : Tree) (p : List Nat × List Nat)
    (rest : Tree) (hgood : ∀ q ∈ good, (deserializeDocument q.2).isSome)
    (hp : deserializeDocument p.2 = none) :
    get_all_documents (good ++ p :: rest) = Except.error "desearialize error" := by
  induction good with
  | nil =>
    obtain ⟨k, v⟩ := p
    simp only at hp
    simp only [List.nil_append, get_all_documents, hp]
  | cons q good' ih =>
    obtain ⟨k, v⟩ := q
    obtain ⟨d, hd⟩ :=
      Option.isSome_iff_exists.mp (hgood (k, v) (List.mem_cons_self _ _))
    simp only at hd
    simp only [List.cons_append, get_all_documents, hd, List.append_eq]
    rw [ih (fun x hx => hgood x (List.mem_cons_of_mem _ hx))]
    rfl

/-- Example document for witnesses: id `"doc-1"`, name `"tést中😀"` (with 2-,
3- and 4-byte UTF-8 characters), path `"/tmp/ñ"`. -/
def exDoc : Document :=
  { id := [100, 111, 99, 45, 49],
    name := [116, 233, 115, 116, 20013, 128512],
    file_path := [47, 116, 109, 112, 47, 241],
    page_count := 5, created_at := 1700000000, is_indexed := false }

/-- A second document with the same id as `exDoc` but every other field
different. -/
def exDoc2 : Document :=
  { id := [100, 111, 99, 45, 49],
    name := [97],
    file_path := [98],
    page_count := 9, created_at := 1800000000, is_indexed := true }

/-- Example chunk with absent metadata and text `"Hola ñoño"` (9 scalar
values, 11 UTF-8 bytes). -/
def exChunkNone : Chunk :=
  { id := [99, 104, 49], document_id := [100, 111, 99, 45, 49],
    text := [72, 111, 108, 97, 32, 241, 111, 241, 111],
    index := 0, page_number := 1, char_count := 9, metadata := none }

/-- Example chunk with present metadata and a 4-byte character in its text. -/
def exChunkSome : Chunk :=
  { id := [99, 50], document_id := [100],
    text := [65, 128512, 20013],
    index := 3, page_number := 2, char_count := 3,
    metadata := some [107, 58, 118] }

/-- C1: for every valid `Document` and `Chunk` (metadata absent or present,
multi-byte Unicode text included), bincode deserialization of the bincode
serialization yields the original value in every field. -/
theorem bincode_roundtrip (d : Document) (c : Chunk)
    (hd : d.Valid) (hc : c.Valid) :
    deserializeDocument (serializeDocument d) = some d ∧
    deserializeChunk (serializeChunk c) = some c :=
  ⟨deserializeDocument_serializeDocument d hd,
   deserializeChunk_serializeChunk c hc⟩

/-- Witness for C1, at a document with 2-, 3- and 4-byte UTF-8 characters, a
chunk with metadata present and one with metadata absent. -/
theorem bincode_roundtrip_witness :
    (exDoc.Valid ∧ exChunkSome.Valid ∧ exChunkNone.Valid) ∧
    deserializeDocument (serializeDocument exDoc) = some exDoc ∧
    deserializeChunk (serializeChunk exChunkSome) = some exChunkSome ∧
    deserializeChunk (serializeChunk exChunkNone) = some exChunkNone :=
  ⟨⟨by decide, by decide, by decide⟩,
   (bincode_roundtrip exDoc exChunkSome (by decide) (by decide)).1,
   (bincode_roundtrip exDoc exChunkSome (by decide) (by decide)).2,
   (bincode_roundtrip exDoc exChunkNone (by decide) (by decide)).2⟩

/-- C2: inserting a valid document and then fetching its id returns
`Ok(Some(d))` with every field equal to the inserted document. -/
theorem insert_then_get (t : Tree) (d : Document) (h : d.Valid) :
    get_document (insert_document t d) d.id = Except.ok (some d) :=
  get_document_insert_document t d h

/-- Witness for C2 on the empty store and `exDoc`. -/
theorem insert_then_get_witness :
    exDoc.Valid ∧
    get_document (insert_document [] exDoc) exDoc.id = Except.ok (some exDoc) :=
  ⟨by decide, insert_then_get [] exDoc (by decide)⟩

/-- C3: a key with no record yields `Ok(None)` (not an error), while a stored
record that fails to decode yields an `Err`, so absence is distinguished from
decode failure. -/
theorem get_absent_ok_none (t : Tree) (i : List Nat) :
    (treeGet t (utf8Encode i) = none → get_document t i = Except.ok none) ∧
    (∀ bytes, treeGet t (utf8Encode i) = some bytes →
      deserializeDocument bytes = none →
      get_document t i = Except.error "deseralization error") := by
  constructor
  · intro h
    rw [get_document, h]
  · intro bytes h1 h2
    rw [get_document, h1]
    simp only [h2]

/-- Witness for C3: the empty store returns `Ok(None)`, a store holding
undecodable bytes returns an error. -/
theorem get_absent_ok_none_witness :
    get_document [] [120] = Except.ok none ∧
    get_document [(utf8Encode [120], [7])] [120]
      = Except.error "deseralization error" :=
  ⟨(get_absent_ok_none [] [120]).1 (by decide),
   (get_absent_ok_none [(utf8Encode [120], [7])] [120]).2 [7]
     (by decide) (by decide)⟩

/-- C4: after `delete_document`, `get_document` on the same id returns
`Ok(None)`; deleting an absent id is a no-op on the store (and the sled
remove/flush path returns `Ok(())` regardless of presence). -/
theorem delete_then_get_none (t : Tree) (i : List Nat) :
    get_document (delete_document t i) i = Except.ok none ∧
    (treeGet t (utf8Encode i) = none → delete_document t i = t) := by
  constructor
  · rw [get_document, delete_document, treeGet_treeRemove]
  · intro h
    exact treeRemove_of_treeGet_none t _ h

/-- Witness for C4: deleting an id actually present makes a subsequent get
return `Ok(None)`; deleting from the empty store leaves it unchanged. -/
theorem delete_then_get_none_witness :
    get_document
        (delete_document [(utf8Encode exDoc.id, serializeDocument exDoc)]
          exDoc.id) exDoc.id = Except.ok none ∧
    delete_document [] [120] = [] :=
  ⟨(delete_then_get_none [(utf8Encode exDoc.id, serializeDocument exDoc)]
      exDoc.id).1,
   (delete_then_get_none [] [120]).2 (by decide)⟩

/-- C5: inserting `d1` and then `d2` with the same id leaves the store holding
exactly `d2`'s bytes under that key, the resulting store equals the one
obtained by inserting `d2` alone, and `get_document` returns `d2` in full. -/
theorem insert_overwrites (t : Tree) (d1 d2 : Document)
    (hid : d1.id = d2.id) (h2 : d2.Valid) :
    treeGet (insert_document (insert_document t d1) d2) (utf8Encode d2.id)
      = some (serializeDocument d2) ∧
    insert_document (insert_document t d1) d2 = insert_document t d2 ∧
    get_document (insert_document (insert_document t d1) d2) d2.id
      = Except.ok (some d2) :=
  ⟨treeGet_treeInsert _ _ _,
   by rw [insert_document, insert_document, insert_document, hid,
        treeInsert_treeInsert_same],
   get_document_insert_document _ d2 h2⟩

/-- Witness for C5 on `exDoc` and `exDoc2`, which share an id and differ in
every other field. -/
theorem insert_overwrites_witness :
    (exDoc.id = exDoc2.id ∧ exDoc2.Valid) ∧
    insert_document (insert_document [] exDoc) exDoc2
      = insert_document [] exDoc2 ∧
    get_document (insert_document (insert_document [] exDoc) exDoc2) exDoc2.id
      = Except.ok (some exDoc2) :=
  ⟨⟨by decide, by decide⟩,
   (insert_overwrites [] exDoc exDoc2 (by decide) (by decide)).2.1,
   (insert_overwrites [] exDoc exDoc2 (by decide) (by decide)).2.2⟩

/-- A store whose two records both decode. -/
def exTreeOk : Tree :=
  [(utf8Encode exDoc.id, serializeDocument exDoc),
   ([107, 50], serializeDocument exDoc2)]

/-- A store whose second record does not decode. -/
def exTreeBad : Tree :=
  [(utf8Encode exDoc.id, serializeDocument exDoc), ([107], [7])]

/-- C6: when every record decodes, `get_all_documents` returns every record of
the tree, decoded, in iteration order; when some record fails to decode, the
whole call returns `Err` at the first failing entry and no partial list is
surfaced. -/
theorem get_all_spec (t : Tree) :
    ((∀ p ∈ t, (deserializeDocument p.2).isSome) →
      get_all_documents t
        = Except.ok (t.filterMap (fun p => deserializeDocument p.2))) ∧
    (∀ good p rest, t = good ++ p :: rest →
      (∀ q ∈ good, (deserializeDocument q.2).isSome) →
      deserializeDocument p.2 = none →
      get_all_documents t = Except.error "desearialize error") := by
  constructor
  · exact get_all_documents_ok t
  · rintro good p rest rfl hg hp
    exact get_all_documents_abort good p rest hg hp

/-- Witness for C6: a fully decodable store lists both documents in order; a
store with an undecodable second record aborts with an error. -/
theorem get_all_spec_witness :
    get_all_documents exTreeOk
      = Except.ok (exTreeOk.filterMap (fun p => deserializeDocument p.2)) ∧
    exTreeOk.filterMap (fun p => deserializeDocument p.2) = [exDoc, exDoc2] ∧
    get_all_documents exTreeBad = Except.error "desearialize error" :=
  ⟨(get_all_spec exTreeOk).1 (by decide), by decide,
   (get_all_spec exTreeBad).2
     [(utf8Encode exDoc.id, serializeDocument exDoc)] ([107], [7]) []
     (by decide) (by decide) (by decide)⟩

/-- C7: `get_db_dir` is total over every host state (no failure mode) and
appends `app_name` — or the compile-time default when absent — to the local
application-data directory, falling back to the roaming data directory, then
the current working directory, then `"."`. -/
theorem get_db_dir_spec (env : DirEnv) (an : Option String) :
    (∃ base, get_db_dir env an = base ++ [an.getD default_app_name]) ∧
    (∀ p, env.data_local_dir = some p →
      get_db_dir env an = p ++ [an.getD default_app_name]) ∧
    (∀ p, env.data_local_dir = none → env.data_dir = some p →
      get_db_dir env an = p ++ [an.getD default_app_name]) ∧
    (∀ p, env.data_local_dir = none → env.data_dir = none →
      env.current_dir = some p →
      get_db_dir env an = p ++ [an.getD default_app_name]) ∧
    (env.data_local_dir = none → env.data_dir = none →
      env.current_dir = none →
      get_db_dir env an = ["."] ++ [an.getD default_app_name]) := by
  obtain ⟨dl, dd, cd⟩ := env
  rcases dl with _ | p1 <;> rcases dd with _ | p2 <;> rcases cd with _ | p3 <;>
    exact ⟨⟨_, rfl⟩, by simp [get_db_dir], by simp [get_db_dir],
      by simp [get_db_dir], by simp [get_db_dir]⟩

/-- Witness for C7: a resolvable local data directory is used with the default
application name; with no data directories, the current working directory is
used with the caller's name. -/
theorem get_db_dir_spec_witness :
    get_db_dir ⟨some ["Users", "u", "AppData", "Local"], none, some ["cwd"]⟩
        none = ["Users", "u", "AppData", "Local"] ++ [default_app_name] ∧
    get_db_dir ⟨none, none, some ["cwd"]⟩ (some "LibIA")
      = ["cwd"] ++ ["LibIA"] :=
  ⟨(get_db_dir_spec ⟨some ["Users", "u", "AppData", "Local"], none,
      some ["cwd"]⟩ none).2.1 _ rfl,
   (get_db_dir_spec ⟨none, none, some ["cwd"]⟩ (some "LibIA")).2.2.2.1 _
     rfl rfl rfl⟩

/-- C8: `Chunk::new` sets `char_count` to the number of Unicode scalar values
of `text` (the length of the scalar-value list, not of its UTF-8 bytes), and
`with_metadata` preserves that equality, so it holds for every chunk built
through the public constructors. -/
theorem chunk_char_count_spec (i di tx : List Nat) (ix pn : Nat)
    (m : List Nat) (c : Chunk) :
    (Chunk.new i di tx ix pn).char_count = tx.length ∧
    ((Chunk.new i di tx ix pn).with_metadata m).char_count = tx.length ∧
    (c.char_count = c.text.length →
      (c.with_metadata m).char_count = (c.with_metadata m).text.length) :=
  ⟨rfl, rfl, fun h => h⟩

/-- Witness for C8 on `"Hola ñoño"`: 9 scalar values (though 11 UTF-8 bytes),
with and without metadata. -/
theorem chunk_char_count_spec_witness :
    (Chunk.new [99] [100] [72, 111, 108, 97, 32, 241, 111, 241, 111] 0
      1).char_count = 9 ∧
    (utf8Encode [72, 111, 108, 97, 32, 241, 111, 241, 111]).length = 11 ∧
    (exChunkNone.with_metadata [123, 125]).char_count
      = (exChunkNone.with_metadata [123, 125]).text.length :=
  ⟨(chunk_char_count_spec [99] [100] [72, 111, 108, 97, 32, 241, 111, 241, 111]
      0 1 [123, 125] exChunkNone).1.trans (by decide),
   by decide,
   (chunk_char_count_spec [99] [100] [72, 111, 108, 97, 32, 241, 111, 241, 111]
     0 1 [123, 125] exChunkNone).2.2 (by decide)⟩

/-- C9: every document `Document::new` returns has `is_indexed = false`,
`mark_as_indexed` sets it to `true`, and no document-mutating operation this
layer defines ever resets it from `true` to `false`. -/
theorem is_indexed_monotone :
    (∀ (clock : Int) (i n fp : List Nat) (pc : Nat) (d : Document),
      Document.new clock i n fp pc = some d → d.is_indexed = false) ∧
    (∀ d : Document, (mark_as_indexed d).is_indexed = true) ∧
    (∀ (op : DocOp) (d : Document), d.is_indexed = true →
      (applyDocOp op d).is_indexed = true) := by
  refine ⟨?_, fun d => rfl, ?_⟩
  · intro clock i n fp pc d h
    rw [Document.new] at h
    split at h
    · cases h
    · cases h; rfl
  · intro op d _
    cases op
    rfl

/-- The document `Document::new` produces at a clock of
`1700000000000000000` ns. -/
def exNewDoc : Document :=
  { id := [100], name := [110], file_path := [102], page_count := 5,
    created_at := 1700000000, is_indexed := false }

/-- Witness for C9: a freshly constructed document is unindexed, marking
indexes it, and re-applying the layer's only mutator keeps it indexed. -/
theorem is_indexed_monotone_witness :
    exNewDoc.is_indexed = false ∧
    (mark_as_indexed exNewDoc).is_indexed = true ∧
    (applyDocOp DocOp.markAsIndexed (mark_as_indexed exNewDoc)).is_indexed
      = true :=
  ⟨is_indexed_monotone.1 1700000000000000000 [100] [110] [102] 5 exNewDoc
     (by decide),
   is_indexed_monotone.2.1 exNewDoc,
   is_indexed_monotone.2.2 DocOp.markAsIndexed (mark_as_indexed exNewDoc)
     (is_indexed_monotone.2.1 exNewDoc)⟩

/-- C10: `Document::new` returns a value exactly when the wall clock is at or
after the Unix epoch (it panics — `none` — on a pre-epoch clock, rather than
returning an error), and under that precondition `created_at` is the clock
truncated to whole seconds. -/
theorem document_new_clock_spec (clock : Int) (i n fp : List Nat) (pc : Nat) :
    ((Document.new clock i n fp pc).isSome ↔ 0 ≤ clock) ∧
    (∀ d, Document.new clock i n fp pc = some d →
      d.created_at = clock.toNat / 1000000000) := by
  by_cases hc : 0 ≤ clock
  · refine ⟨?_, ?_⟩
    · rw [Document.new, if_pos hc]
      simpa using hc
    · intro d h
      rw [Document.new, if_pos hc] at h
      cases h
      rfl
  · refine ⟨?_, ?_⟩
    · rw [Document.new, if_neg hc]
      simpa using hc
    · intro d h
      rw [Document.new, if_neg hc] at h
      cases h

/-- Witness for C10: a 2023-era clock yields a document whose `created_at` is
the whole-second truncation; a pre-epoch clock yields no document. -/
theorem document_new_clock_spec_witness :
    (Document.new 1700000000123456789 [100] [110] [102] 5).isSome ∧
    exNewDoc.created_at = (1700000000123456789 : Int).toNat / 1000000000 ∧
    Document.new (-5) [100] [110] [102] 5 = none :=
  ⟨(document_new_clock_spec 1700000000123456789 [100] [110] [102] 5).1.mpr
     (by decide),
   (document_new_clock_spec 1700000000123456789 [100] [110] [102] 5).2
     exNewDoc (by decide),
   by decide⟩

end LibIA
